import Mathlib

/-!
Verification of the modkit pileup / tag-rewrite core.

This file gives a shallow embedding of the Rust sources
(`mod_pileup.rs`, `read_cache.rs`, `read_ids_to_base_mod_probs.rs`,
`commands.rs`) and proves or refutes the frozen specification claims
about them.  Machine floats (`f32`) are embedded as exact rationals so
that the arithmetic relations between the numerators and denominators
the code divides can be stated precisely; `u32` counters are embedded
as `Nat`; hash maps are embedded as association lists with the same
insert/lookup semantics.
-/

namespace Modkit

/-- Reference / read strand, from `util::Strand`. -/
inductive Strand
  | Positive
  | Negative
deriving DecidableEq, Repr

/-- Canonical DNA base, from `mod_base_code::DnaBase` (file not in the
source tree; the variants A/C/G/T are fixed by the spec and by the
match arms in `mod_pileup.rs`). -/
inductive DnaBase
  | A
  | C
  | G
  | T
deriving DecidableEq, Repr

/-- Modification codes, from `mod_base_code::ModCode` (file not in the
source tree; the variants matched in `Tally::add_feature` are
`C, h, m, A, a`, with a catch-all for the remaining codes, which we
represent by `G` and `T`). -/
inductive ModCode
  | C
  | h
  | m
  | A
  | a
  | G
  | T
deriving DecidableEq, Repr

/-- Raw character of a mod code, `ModCode::char`. -/
def ModCode.char : ModCode → Char
  | .C => 'C'
  | .h => 'h'
  | .m => 'm'
  | .A => 'A'
  | .a => 'a'
  | .G => 'G'
  | .T => 'T'

/-- Embedding of `mod_pileup::Feature`. -/
inductive Feature
  | Delete
  | Filtered
  | NoCall (base : DnaBase)
  | ModCall (code : ModCode)
deriving DecidableEq, Repr

/-- Embedding of `mod_pileup::Tally`: per-strand feature counters (all `u32` in the
source, embedded as `Nat`). -/
structure Tally where
  n_delete : Nat := 0
  n_filtered : Nat := 0
  n_basecall_A : Nat := 0
  n_basecall_C : Nat := 0
  n_basecall_G : Nat := 0
  n_basecall_T : Nat := 0
  n_modcall_A : Nat := 0
  n_modcall_C : Nat := 0
  n_modcall_a : Nat := 0
  n_modcall_h : Nat := 0
  n_modcall_m : Nat := 0
deriving DecidableEq, Repr

/-- Embedding of `Tally::add_feature`. -/
def Tally.add_feature (t : Tally) (feature : Feature) : Tally :=
  match feature with
  | .Filtered => { t with n_filtered := t.n_filtered + 1 }
  | .Delete => { t with n_delete := t.n_delete + 1 }
  | .ModCall mod_base =>
    match mod_base with
    | .C => { t with n_modcall_C := t.n_modcall_C + 1 }
    | .h => { t with n_modcall_h := t.n_modcall_h + 1 }
    | .m => { t with n_modcall_m := t.n_modcall_m + 1 }
    | .A => { t with n_modcall_A := t.n_modcall_A + 1 }
    | .a => { t with n_modcall_a := t.n_modcall_a + 1 }
    | _ => t
  | .NoCall dna_base =>
    match dna_base with
    | .A => { t with n_basecall_A := t.n_basecall_A + 1 }
    | .C => { t with n_basecall_C := t.n_basecall_C + 1 }
    | .G => { t with n_basecall_G := t.n_basecall_G + 1 }
    | .T => { t with n_basecall_T := t.n_basecall_T + 1 }

/-- Embedding of `mod_pileup::StrandRule`. -/
inductive StrandRule
  | Positive
  | Negative
  | Both
deriving DecidableEq, Repr

/-- Embedding of `mod_pileup::FeatureVector`: the positive- and negative-strand
sub-tallies of one pileup column. -/
structure FeatureVector where
  pos_tally : Tally := {}
  neg_tally : Tally := {}
deriving DecidableEq, Repr

/-- Embedding of `FeatureVector::add_feature`: route a contribution to a sub-tally
according to the strand rule. -/
def FeatureVector.add_feature (fv : FeatureVector) (alignment_strand : Strand)
    (feature : Feature) (read_strand : Strand) (strand_rule : StrandRule) :
    FeatureVector :=
  match strand_rule with
  | .Both =>
    match alignment_strand, read_strand with
    | .Positive, .Positive => { fv with pos_tally := fv.pos_tally.add_feature feature }
    | .Negative, .Positive => { fv with neg_tally := fv.neg_tally.add_feature feature }
    | .Positive, .Negative => { fv with neg_tally := fv.neg_tally.add_feature feature }
    | .Negative, .Negative => { fv with pos_tally := fv.pos_tally.add_feature feature }
  | .Positive =>
    match alignment_strand, read_strand with
    | .Positive, .Positive => { fv with pos_tally := fv.pos_tally.add_feature feature }
    | .Negative, .Negative => { fv with pos_tally := fv.pos_tally.add_feature feature }
    | _, _ => fv
  | .Negative =>
    match alignment_strand, read_strand with
    | .Negative, .Positive => { fv with neg_tally := fv.neg_tally.add_feature feature }
    | .Positive, .Negative => { fv with neg_tally := fv.neg_tally.add_feature feature }
    | _, _ => fv

/-- Embedding of `mod_pileup::PileupFeatureCounts`: one output row.  The `f32`
field `fraction_modified` is embedded as an exact rational. -/
structure PileupFeatureCounts where
  strand : Strand
  filtered_coverage : Nat
  raw_mod_code : Char
  fraction_modified : ℚ
  n_canonical : Nat
  n_modified : Nat
  n_other_modified : Nat
  n_delete : Nat
  n_filtered : Nat
  n_diff : Nat
  n_nocall : Nat
deriving DecidableEq, Repr

/-- Modelled from the spec: `mod_bam::CollapseMethod` lives in
`mod_bam.rs`, which is not in the source tree; the spec describes a
redistribute method over one mod code and a from-set to target
conversion, and only the constructor shape matters for pileup. -/
inductive CollapseMethod
  | ReDistribute (code : ModCode)
  | Convert (to_code : ModCode) (from_codes : List ModCode)
deriving DecidableEq, Repr

/-- Embedding of `mod_pileup::PileupNumericOptions`. -/
inductive PileupNumericOptions
  | Passthrough
  | Combine
  | Collapse (method : CollapseMethod)
deriving DecidableEq, Repr

/-- The observed-mod-codes set of one strand (`HashSet<ModCode>` in the
source), embedded as its characteristic function. -/
def ObservedMods : Type := ModCode → Bool

/-- Embedding of `FeatureVector::add_pileup_counts`: push the cytosine-family rows
for one sub-tally.  The loop over `[(h, (n_h, n_m)), (m, (n_m, n_h))]`
is unrolled; `counts.push` becomes an append. -/
def FeatureVector.add_pileup_counts (pileup_options : PileupNumericOptions)
    (counts : List PileupFeatureCounts) (observed_mods : ObservedMods)
    (strand : Strand) (filtered_coverage n_h n_m n_canonical n_delete
    n_filtered n_diff n_nocall : Nat) : List PileupFeatureCounts :=
  match pileup_options with
  | .Passthrough | .Collapse _ =>
    let h_row : PileupFeatureCounts :=
      { strand := strand
        filtered_coverage := filtered_coverage
        raw_mod_code := ModCode.char .h
        fraction_modified := (n_h : ℚ) / (filtered_coverage : ℚ)
        n_canonical := n_canonical
        n_modified := n_h
        n_other_modified := n_m
        n_delete := n_delete
        n_filtered := n_filtered
        n_diff := n_diff
        n_nocall := n_nocall }
    let m_row : PileupFeatureCounts :=
      { strand := strand
        filtered_coverage := filtered_coverage
        raw_mod_code := ModCode.char .m
        fraction_modified := (n_m : ℚ) / (filtered_coverage : ℚ)
        n_canonical := n_canonical
        n_modified := n_m
        n_other_modified := n_h
        n_delete := n_delete
        n_filtered := n_filtered
        n_diff := n_diff
        n_nocall := n_nocall }
    let counts := if observed_mods .h then counts ++ [h_row] else counts
    if observed_mods .m then counts ++ [m_row] else counts
  | .Combine =>
    let n_modified := n_h + n_m
    let combined_row : PileupFeatureCounts :=
      { strand := strand
        filtered_coverage := filtered_coverage
        raw_mod_code := ModCode.char .C
        fraction_modified := (n_modified : ℚ) / (filtered_coverage : ℚ)
        n_canonical := n_canonical
        n_modified := n_modified
        n_other_modified := 0
        n_delete := n_delete
        n_filtered := n_filtered
        n_diff := n_diff
        n_nocall := n_nocall }
    counts ++ [combined_row]

/-- Embedding of `FeatureVector::add_tally_to_counts`: decode one sub-tally into
rows (the adenine row, then the cytosine-family rows). -/
def FeatureVector.add_tally_to_counts (counts : List PileupFeatureCounts)
    (tally : Tally) (strand : Strand) (observed_mods : ObservedMods)
    (pileup_options : PileupNumericOptions) : List PileupFeatureCounts :=
  let counts :=
    if tally.n_modcall_A + tally.n_modcall_a > 0 then
      let n_canonical := tally.n_modcall_A
      let n_mod := tally.n_modcall_a
      let filtered_coverage := n_canonical + n_mod
      let n_nocall := tally.n_basecall_A
      let n_diff := tally.n_basecall_C + tally.n_basecall_T
        + tally.n_basecall_G + tally.n_modcall_C + tally.n_modcall_m
        + tally.n_modcall_h
      let a_row : PileupFeatureCounts :=
        { strand := strand
          filtered_coverage := filtered_coverage
          raw_mod_code := ModCode.char .a
          fraction_modified := (n_mod : ℚ) / ((n_mod : ℚ) + (n_canonical : ℚ))
          n_canonical := n_canonical
          n_modified := n_mod
          n_other_modified := 0
          n_delete := tally.n_delete
          n_filtered := tally.n_filtered
          n_diff := n_diff
          n_nocall := n_nocall }
      counts ++ [a_row]
    else counts
  if tally.n_modcall_h + tally.n_modcall_m + tally.n_modcall_C > 0 then
    let n_canonical := tally.n_modcall_C
    let n_nocall := tally.n_basecall_C
    let n_diff := tally.n_basecall_A + tally.n_basecall_G
      + tally.n_basecall_T + tally.n_modcall_A + tally.n_modcall_a
    let n_h := tally.n_modcall_h
    let n_m := tally.n_modcall_m
    let filtered_coverage := n_canonical + n_h + n_m
    FeatureVector.add_pileup_counts pileup_options counts observed_mods
      strand filtered_coverage n_h n_m n_canonical tally.n_delete
      tally.n_filtered n_diff n_nocall
  else counts

/-- Embedding of `FeatureVector::decode`: decode the positive sub-tally, then the
negative sub-tally, into one row list. -/
def FeatureVector.decode (fv : FeatureVector)
    (pos_observed_mods neg_observed_mods : ObservedMods)
    (pileup_options : PileupNumericOptions) : List PileupFeatureCounts :=
  let counts := FeatureVector.add_tally_to_counts [] fv.pos_tally
    .Positive pos_observed_mods pileup_options
  FeatureVector.add_tally_to_counts counts fv.neg_tally
    .Negative neg_observed_mods pileup_options

/-- The rows an emitted sub-tally contributes, by raw mod code: the
adenine row is guarded only by the A-mod-call count, the
cytosine-family rows by the C-mod-call count and (in
Passthrough/Collapse) the observed set, while Combine emits a single
`C` row.  Used to characterise `decode`'s output row codes. -/
def tallyRowCodes (tally : Tally) (observed_mods : ObservedMods)
    (pileup_options : PileupNumericOptions) : List Char :=
  (if tally.n_modcall_A + tally.n_modcall_a > 0 then ['a'] else []) ++
    (if tally.n_modcall_h + tally.n_modcall_m + tally.n_modcall_C > 0 then
      match pileup_options with
      | .Passthrough | .Collapse _ =>
        (if observed_mods .h then ['h'] else []) ++
          (if observed_mods .m then ['m'] else [])
      | .Combine => ['C']
    else [])

/-! ### Association-list embedding of `HashMap` -/

/-- Embedding of `HashMap::get`. -/
def alookup {κ ν : Type} [DecidableEq κ] : List (κ × ν) → κ → Option ν
  | [], _ => none
  | (k, v) :: rest, key => if k = key then some v else alookup rest key

/-- Embedding of `HashMap::insert` (replaces an existing binding, appends a new
one). -/
def ainsert {κ ν : Type} [DecidableEq κ] : List (κ × ν) → κ → ν → List (κ × ν)
  | [], key, val => [(key, val)]
  | (k, v) :: rest, key, val =>
    if k = key then (k, val) :: rest else (k, v) :: ainsert rest key val

/-! ### Pileup column iterator (`mod_pileup::PileupIter`)

The underlying htslib pileup iterator is embedded as the list of
reference positions of its columns; yielding a `StrandPileup` becomes
emitting a `(position, strand_rule)` pair. -/

/-- Conversion of a motif strand to the column strand rule, from the
match in `PileupIter::next`. -/
def strandToRule : Strand → StrandRule
  | .Positive => .Positive
  | .Negative => .Negative

/-- Embedding of `mod_pileup::PileupIter` state. -/
structure PileupIter where
  pileups : List Nat
  start_pos : Nat
  end_pos : Nat
  motif_locations : Option (List (Nat × Strand))

/-- Embedding of `PileupIter::new`: restrict the motif locations of the contig to
the interval `[start_pos, end_pos)`. -/
def PileupIter.new (pileups : List Nat) (start_pos end_pos : Nat)
    (motif_locations : Option (List (Nat × Strand))) : PileupIter :=
  { pileups := pileups
    start_pos := start_pos
    end_pos := end_pos
    motif_locations := motif_locations.map (fun mls =>
      mls.filter (fun pr => decide (start_pos ≤ pr.1) && decide (pr.1 < end_pos))) }

/-- Repeated `PileupIter::next` until it returns `None`: positions at
or past `end_pos` stop iteration, positions before `start_pos` are
skipped, and with motif locations only listed positions are yielded,
carrying the strand rule of the motif strand. -/
def pileupDrain (start_pos end_pos : Nat)
    (motif_locations : Option (List (Nat × Strand))) :
    List Nat → List (Nat × StrandRule)
  | [] => []
  | p :: rest =>
    if end_pos ≤ p then []
    else if p < start_pos then pileupDrain start_pos end_pos motif_locations rest
    else
      match motif_locations with
      | some locations =>
        match alookup locations p with
        | some strand =>
          (p, strandToRule strand) :: pileupDrain start_pos end_pos motif_locations rest
        | none => pileupDrain start_pos end_pos motif_locations rest
      | none => (p, StrandRule.Both) :: pileupDrain start_pos end_pos motif_locations rest

/-- All columns an iterator yields. -/
def PileupIter.run (iter : PileupIter) : List (Nat × StrandRule) :=
  pileupDrain iter.start_pos iter.end_pos iter.motif_locations iter.pileups

/-! ### `mod_pileup::ModBasePileup` -/

/-- Embedding of `mod_pileup::ModBasePileup`; the position-keyed hash map is
embedded as an association list (hash maps have pairwise-distinct
keys, which becomes a hypothesis where needed). -/
structure ModBasePileup where
  chrom_name : String
  position_feature_counts : List (Nat × List PileupFeatureCounts)

/-- Embedding of `ModBasePileup::num_results`. -/
def ModBasePileup.num_results (self : ModBasePileup) : Nat :=
  self.position_feature_counts.length

/-- Embedding of `ModBasePileup::iter_counts`: iterate the per-position counts
sorted by position (`sorted_by(|(x, _), (y, _)| x.cmp(y))`). -/
def ModBasePileup.iter_counts (self : ModBasePileup) :
    List (Nat × List PileupFeatureCounts) :=
  self.position_feature_counts.insertionSort (fun x y => x.1 ≤ y.1)

/-! ### Read cache (`read_cache.rs`)

Probabilities (`f32`) are embedded as rationals; `bam::Record` is
embedded as the data `add_record` extracts from it: the query name and
the outcome of the `mod_bam` parsing layer (which is not part of the
source tree), presented as the per-canonical-base processing steps the
`add_record` loop consumes. -/

/-- Embedding of `errs::RunError` (the three variants matched in `commands.rs`). -/
inductive RunError
  | BadInput (msg : String)
  | Failed (msg : String)
  | Skipped (msg : String)
deriving DecidableEq, Repr

/-- Embedding of `mod_bam::BaseModCall`. -/
inductive BaseModCall
  | Canonical (p : ℚ)
  | Modified (p : ℚ) (code : ModCode)
  | Filtered
deriving DecidableEq, Repr

/-- Reference position to base-mod-call map of one read and canonical
base (`read_cache::RefPosBaseModCalls`). -/
def RefPosBaseModCalls : Type := List (Nat × BaseModCall)

/-- Modelled from the spec: the delta-list converter,
`extract_mod_probs` and the aligned-pairs projection live in
`mod_bam.rs` / `util.rs`, which are not in the source tree; only their
outcome reaches the cache.  A `BaseStep` is one iteration of the
per-canonical-base loop in `ReadCache::add_record`: either the
converter / probability extraction fails, or it produces the mod codes
seen on the base together with the reference-position keyed calls. -/
inductive BaseStep
  | err (e : RunError)
  | ok (canonical_base : Char) (codes : List ModCode) (calls : RefPosBaseModCalls)

/-- Modelled from the spec: `parse_raw_mod_tags` and
`get_canonical_bases_with_mod_calls` live in `mod_bam.rs`, which is
not in the source tree.  A `ParseOutcome` is their combined outcome
for a record: no tags at all, a tag parse error, a base-listing error,
or the list of per-base steps. -/
inductive ParseOutcome
  | noTags
  | tagErr (e : RunError)
  | basesErr (e : RunError)
  | okBases (mm : String) (steps : List BaseStep)

/-- The part of `bam::Record` that `read_cache.rs` consumes. -/
structure CacheRecord where
  qname : String
  parse : ParseOutcome

/-- Embedding of `read_cache::ReadCache` state. -/
structure ReadCache where
  reads : List (String × List (Char × RefPosBaseModCalls))
  skip_set : List String
  mod_codes : List (String × List ModCode)

/-- The per-base body of the loop in `ReadCache::add_record`: extend
the record's mod-code set, then `add_base_mod_probs_for_base` (insert
the reference-position calls under the canonical base). -/
def ReadCache.processBases (cache : ReadCache) (record_name : String) :
    List BaseStep → ReadCache × Except RunError Unit
  | [] => (cache, .ok ())
  | .err e :: _ => (cache, .error e)
  | .ok canonical_base codes calls :: rest =>
    let record_mod_codes := (alookup cache.mod_codes record_name).getD []
    let cache := { cache with
      mod_codes := ainsert cache.mod_codes record_name (record_mod_codes ++ codes) }
    let bases_to_mod_calls := (alookup cache.reads record_name).getD []
    let cache := { cache with
      reads := ainsert cache.reads record_name
        (ainsert bases_to_mod_calls canonical_base calls) }
    ReadCache.processBases cache record_name rest

/-- Embedding of `ReadCache::add_record`. -/
def ReadCache.add_record (cache : ReadCache) (record : CacheRecord) :
    ReadCache × Except RunError Unit :=
  let record_name := record.qname
  match record.parse with
  | .okBases _mm steps =>
    if steps.isEmpty then
      (cache, .error (.Skipped "record has empty mm tag"))
    else
      cache.processBases record_name steps
  | .tagErr e => (cache, .error e)
  | .basesErr e => (cache, .error e)
  | .noTags => ({ cache with skip_set := record_name :: cache.skip_set }, .ok ())

/-- Embedding of `ReadCache::add_record` together with the caller's error handling
in `get_mod_call` / `get_mod_codes_for_record`: on error the read id
is inserted into the skip set. -/
def ReadCache.addRecordHandled (cache : ReadCache) (record : CacheRecord) :
    ReadCache :=
  match cache.add_record record with
  | (c, .ok _) => c
  | (c, .error _) => { c with skip_set := record.qname :: c.skip_set }

/-- Embedding of `ReadCache::get_mod_call`, with explicit recursion fuel (the Rust
function calls itself after `add_record`); `none` means the fuel ran
out before the function returned.  The result pairs the updated cache
with the optional call. -/
def ReadCache.get_mod_call :
    Nat → ReadCache → CacheRecord → Nat → Char → ℚ →
    Option (ReadCache × Option BaseModCall)
  | 0, _, _, _, _, _ => none
  | fuel + 1, cache, record, position, canonical_base, threshold =>
    let read_id := record.qname
    if read_id ∈ cache.skip_set then some (cache, none)
    else
      match alookup cache.reads read_id with
      | some canonical_base_to_calls =>
        some (cache,
          (alookup canonical_base_to_calls canonical_base).bind
            (fun ref_pos_mod_base_calls =>
              (alookup ref_pos_mod_base_calls position).map
                (fun base_mod_call =>
                  match base_mod_call with
                  | .Canonical p =>
                    if p > threshold then base_mod_call else .Filtered
                  | .Modified p _ =>
                    if p > threshold then base_mod_call else .Filtered
                  | .Filtered => base_mod_call)))
      | none =>
        ReadCache.get_mod_call fuel (cache.addRecordHandled record) record
          position canonical_base threshold

/-- Embedding of `ReadCache::get_mod_codes_for_record`, with explicit recursion
fuel as above. -/
def ReadCache.get_mod_codes_for_record :
    Nat → ReadCache → CacheRecord → Option (ReadCache × List ModCode)
  | 0, _, _ => none
  | fuel + 1, cache, record =>
    let read_id := record.qname
    if read_id ∈ cache.skip_set then some (cache, [])
    else
      match alookup cache.mod_codes read_id with
      | some mod_codes => some (cache, mod_codes)
      | none =>
        ReadCache.get_mod_codes_for_record fuel
          (cache.addRecordHandled record) record

/-! ### `ReadIdsToBaseModProbs` (`read_ids_to_base_mod_probs.rs`) -/

/-- Modelled from the spec: `mod_bam::BaseModProbs` lives in
`mod_bam.rs`, which is not in the source tree; per the spec it is the
ordered list of mod codes and their probabilities at one forward-read
position. -/
structure BaseModProbs where
  mod_codes : List Char
  probs : List ℚ
deriving DecidableEq, Repr

/-- Embedding of `ReadIdsToBaseModProbs`: read id mapped to canonical base mapped
to the base-mod-probs observed on that base. -/
structure ReadIdsToBaseModProbs where
  inner : List (String × List (DnaBase × List BaseModProbs))
deriving DecidableEq

/-- Embedding of `Moniod::zero` for `ReadIdsToBaseModProbs`. -/
def ReadIdsToBaseModProbs.zero : ReadIdsToBaseModProbs := ⟨[]⟩

/-- Embedding of `Moniod::op` for `ReadIdsToBaseModProbs`: fold the right operand's
entries into the left, skipping read ids the left already contains. -/
def ReadIdsToBaseModProbs.op (self other : ReadIdsToBaseModProbs) :
    ReadIdsToBaseModProbs :=
  ⟨other.inner.foldl
    (fun acc kv => if (alookup acc kv.1).isSome then acc else acc ++ [kv])
    self.inner⟩

/-- Embedding of `ReadIdsToBaseModProbs::seen`. -/
def ReadIdsToBaseModProbs.seen (self : ReadIdsToBaseModProbs)
    (record_name : String) : Bool :=
  (alookup self.inner record_name).isSome

/-- Embedding of `ReadIdsToBaseModProbs::add_read_without_probs`
(`entry(read_id).or_insert(HashMap::new())`). -/
def ReadIdsToBaseModProbs.add_read_without_probs
    (self : ReadIdsToBaseModProbs) (read_id : String) :
    ReadIdsToBaseModProbs :=
  if (alookup self.inner read_id).isSome then self
  else ⟨self.inner ++ [(read_id, [])]⟩

/-- Embedding of `ReadIdsToBaseModProbs::add_mod_probs_for_read`. -/
def ReadIdsToBaseModProbs.add_mod_probs_for_read
    (self : ReadIdsToBaseModProbs) (read_id : String)
    (canonical_base : DnaBase) (mod_probs : List BaseModProbs) :
    ReadIdsToBaseModProbs :=
  let entry := (alookup self.inner read_id).getD []
  ⟨ainsert self.inner read_id (ainsert entry canonical_base mod_probs)⟩

/-- Embedding of `record_sampler::Indicator`. -/
inductive Indicator
  | Use
  | Skip
  | Done
deriving DecidableEq, Repr

/-- Modelled from the spec: `filter_records_iter` and
`BaseModProbs::into_collapsed` live in `mod_bam.rs`, which is not in
the source tree; only their output reaches the accumulator.  The
stream consumed by `ReadIdsToBaseModProbs::process_records` carries,
per record, the sampler's indicator, the read name, and the per-base
mod probabilities after the strand complement and optional collapse
were applied. -/
def RecordStream : Type :=
  List (Indicator × String × List (DnaBase × List BaseModProbs))

/-- The record loop of `ReadIdsToBaseModProbs::process_records`:
`Done` breaks, `Skip` continues, and a used record is skipped when its
read id was already collected, recorded without probs when its info is
empty, and otherwise folded in base by base. -/
def ReadIdsToBaseModProbs.processRecords :
    ReadIdsToBaseModProbs → RecordStream → ReadIdsToBaseModProbs
  | acc, [] => acc
  | acc, (indicator, record_name, info) :: rest =>
    match indicator with
    | .Done => acc
    | .Skip => ReadIdsToBaseModProbs.processRecords acc rest
    | .Use =>
      if acc.seen record_name then
        ReadIdsToBaseModProbs.processRecords acc rest
      else if info.isEmpty then
        ReadIdsToBaseModProbs.processRecords
          (acc.add_read_without_probs record_name) rest
      else
        ReadIdsToBaseModProbs.processRecords
          (info.foldl
            (fun a bp => a.add_mod_probs_for_read record_name bp.1 bp.2) acc)
          rest

/-! ### Tag-rewrite drivers (`commands.rs`)

`bam::Record` is embedded as the data the drivers consume: secondary
flag, sequence length, the auxiliary tag list, and the per-group
serialized MM/ML payload after the configured transforms (`Modelled
from the spec:` `format_mm_ml_tag`, `collapse_mod_probs` and the group
structure live in `mod_bam.rs`, which is not in the source tree; the
drivers only concatenate their output). -/

/-- An auxiliary tag value (string-typed MM, byte-array-typed ML). -/
inductive Aux
  | str (s : String)
  | bytes (bs : List Nat)
deriving DecidableEq, Repr

/-- The part of `bam::Record` the tag-rewrite drivers consume. -/
structure BamRecord where
  isSecondary : Bool
  seqLen : Nat
  aux : List (String × Aux)
  groups : List (String × List Nat)
deriving DecidableEq, Repr

/-- Embedding of `Record::remove_aux`. -/
def BamRecord.remove_aux (r : BamRecord) (tag : String) : BamRecord :=
  { r with aux := r.aux.filter (fun kv => kv.1 != tag) }

/-- Embedding of `Record::push_aux`. -/
def BamRecord.push_aux (r : BamRecord) (tag : String) (v : Aux) : BamRecord :=
  { r with aux := r.aux ++ [(tag, v)] }

/-- Modelled from the spec: `mod_bam::MM_TAGS` lives in `mod_bam.rs`,
which is not in the source tree; per the spec the canonical uppercase
name comes first, the legacy name second. -/
def MM_TAGS : List String := ["MM", "Mm"]

/-- Modelled from the spec: `mod_bam::ML_TAGS`, as for `MM_TAGS`. -/
def ML_TAGS : List String := ["ML", "Ml"]

/-- Embedding of `commands::record_is_valid`. -/
def record_is_valid (record : BamRecord) : Except RunError Unit :=
  if record.isSecondary then .error (.Skipped "not primary")
  else if record.seqLen = 0 then .error (.Failed "seq is zero length")
  else .ok ()

/-- Modelled from the spec: `mod_bam::ModBaseInfo` lives in
`mod_bam.rs`, which is not in the source tree; it records which MM/ML
tag names were observed on input together with the parsed groups
(here carried as the per-group serialized payload). -/
structure ModBaseInfo where
  mm_style : String
  ml_style : String
  groups : List (String × List Nat)
deriving DecidableEq, Repr

/-- Modelled from the spec: `ModBaseInfo::new_from_record` lives in
`mod_bam.rs`, which is not in the source tree; parsing reads `MM` or
the legacy `Mm` — first present name wins — and reports a recoverable
skip when the tags are absent. -/
def ModBaseInfo.new_from_record (record : BamRecord) :
    Except RunError ModBaseInfo :=
  match MM_TAGS.find? (fun t => (alookup record.aux t).isSome),
    ML_TAGS.find? (fun t => (alookup record.aux t).isSome) with
  | some mm_style, some ml_style =>
    .ok { mm_style := mm_style, ml_style := ml_style, groups := record.groups }
  | _, _ => .error (.Skipped "no mod tags")

/-- Modelled from the spec: `format_mm_ml_tag` lives in `mod_bam.rs`,
which is not in the source tree, so records carry their per-group
serialized payload directly; this is the `mm_agg`/`ml_agg`
concatenation loop of `adjust_mod_probs` / `update_mod_tags`. -/
def aggregateTags (groups : List (String × List Nat)) : String × List Nat :=
  groups.foldl (fun acc g => (acc.1 ++ g.1, acc.2 ++ g.2)) ("", [])

/-- Embedding of `commands::adjust_mod_probs`: validate, parse, rewrite the tags
and push them back under the observed tag-name style (the `?` early
returns become explicit matches). -/
def adjust_mod_probs (record : BamRecord) : Except RunError BamRecord :=
  match record_is_valid record with
  | .error e => .error e
  | .ok _ =>
    match ModBaseInfo.new_from_record record with
    | .error e => .error e
    | .ok mod_base_info =>
      let mm_style := mod_base_info.mm_style
      let ml_style := mod_base_info.ml_style
      let agg := aggregateTags mod_base_info.groups
      let record := record.remove_aux mm_style
      let record := record.remove_aux ml_style
      let record := record.push_aux mm_style (.str agg.1)
      let record := record.push_aux ml_style (.bytes agg.2)
      .ok record

/-- Embedding of `commands::update_mod_tags`: validate, parse, optionally rewrite
the skip mode (which does not touch the tag names) and push the tags
back under the canonical uppercase names `MM_TAGS[0]` / `ML_TAGS[0]`. -/
def update_mod_tags (record : BamRecord) : Except RunError BamRecord :=
  match record_is_valid record with
  | .error e => .error e
  | .ok _ =>
    match ModBaseInfo.new_from_record record with
    | .error e => .error e
    | .ok mod_base_info =>
      let mm_style := mod_base_info.mm_style
      let ml_style := mod_base_info.ml_style
      let agg := aggregateTags mod_base_info.groups
      let record := record.remove_aux mm_style
      let record := record.remove_aux ml_style
      let record := record.push_aux (MM_TAGS.headD "") (.str agg.1)
      let record := record.push_aux (ML_TAGS.headD "") (.bytes agg.2)
      .ok record

/-- How the driver loops account one record. -/
inductive StepResult
  | aborted (msg : String)
  | countedFailed
  | countedSkipped
  | written
deriving DecidableEq, Repr

/-- The per-record match in `Adjust::run`: BadInput/Failed abort under
fail-fast and count as failed otherwise, Skipped counts as skipped,
and a successful rewrite is written (a write error again aborts under
fail-fast and counts as failed otherwise). -/
def adjustRunStep (fail_fast : Bool) (res : Except RunError BamRecord)
    (write_ok : Bool) : StepResult :=
  match res with
  | .error (.BadInput e) => if fail_fast then .aborted e else .countedFailed
  | .error (.Failed e) => if fail_fast then .aborted e else .countedFailed
  | .error (.Skipped _) => .countedSkipped
  | .ok _ =>
    if write_ok then .written
    else if fail_fast then .aborted "failed to write" else .countedFailed

/-- The per-record match in `Update::run`: as `Adjust::run` but with
no fail-fast option, so nothing aborts. -/
def updateRunStep (res : Except RunError BamRecord) (write_ok : Bool) :
    StepResult :=
  match res with
  | .error (.BadInput _) => .countedFailed
  | .error (.Failed _) => .countedFailed
  | .error (.Skipped _) => .countedSkipped
  | .ok _ => if write_ok then .written else .countedFailed

/-! ### Auxiliary definitions and concrete inputs used by the proofs -/

/-- First-defined option, the lookup semantics of appended association
lists. -/
def ofirst {α : Type} : Option α → Option α → Option α
  | some v, _ => some v
  | none, b => b

/-- An empty observed-mod-codes set. -/
def obsFalse : ObservedMods := fun _ => false

/-- The observed-mod-codes set containing exactly `m`. -/
def obsOnlyM : ObservedMods := fun c => match c with | .m => true | _ => false

/-- A column that saw one canonical C call and one 5mC call on the
positive strand. -/
def fvWitness : FeatureVector :=
  { pos_tally := { n_modcall_m := 1, n_modcall_C := 1 } }

/-- The row `fvWitness` decodes to in Passthrough mode with `m`
observed. -/
def pfcWitness : PileupFeatureCounts :=
  { strand := .Positive
    filtered_coverage := 2
    raw_mod_code := 'm'
    fraction_modified := ((1 : ℕ) : ℚ) / ((2 : ℕ) : ℚ)
    n_canonical := 1
    n_modified := 1
    n_other_modified := 0
    n_delete := 0
    n_filtered := 0
    n_diff := 0
    n_nocall := 0 }

/-- A column that saw a single 6mA call on the positive strand. -/
def fvAdenine : FeatureVector := { pos_tally := { n_modcall_a := 1 } }

/-- A primary record with a zero-length sequence. -/
def zeroLenRecord : BamRecord :=
  { isSecondary := false, seqLen := 0, aux := [], groups := [] }

/-- A valid record carrying only the legacy lowercase `Mm`/`Ml` tag
names. -/
def legacyRecord : BamRecord :=
  { isSecondary := false
    seqLen := 4
    aux := [("Mm", .str "C+m,0;"), ("Ml", .bytes [128])]
    groups := [("C+m,0;", [128])] }

/-- The `ModBaseInfo` parsed from `legacyRecord`. -/
def legacyInfo : ModBaseInfo :=
  { mm_style := "Mm", ml_style := "Ml", groups := [("C+m,0;", [128])] }

/-- A read cache holding one read with a single stored mod call. -/
def cacheWitness : ReadCache :=
  { reads := [("read1", [('C', [(5, .Modified (3 / 4) .m)])])]
    skip_set := []
    mod_codes := [] }

/-- The record of the read stored in `cacheWitness`. -/
def recordWitness : CacheRecord := { qname := "read1", parse := .noTags }

/-- Motif locations with one in-interval CpG-like position. -/
def motifWitness : List (Nat × Strand) := [(0, .Positive), (2, .Negative)]

/-- A pileup whose position map is stored out of order. -/
def mbpWitness : ModBasePileup :=
  { chrom_name := "contig", position_feature_counts := [(3, []), (1, [])] }

/-- Left operand for the monoid witness. -/
def ridsX : ReadIdsToBaseModProbs := ⟨[("read1", [])]⟩

/-- Right operand for the monoid witness, sharing `read1` with
`ridsX`. -/
def ridsY : ReadIdsToBaseModProbs :=
  ⟨[("read1", [(DnaBase.C, [])]), ("read2", [])]⟩

/-! ## Helper lemmas -/

theorem mem_ite_append {α : Type} {c : Prop} [Decidable c]
    {l : List α} {x y : α} (h : y ∈ if c then l ++ [x] else l) :
    y ∈ l ∨ y = x := by
  split at h
  · rcases List.mem_append.mp h with h | h
    · exact .inl h
    · exact .inr (List.mem_singleton.mp h)
  · exact .inl h

theorem add_pileup_counts_rowInv {opts : PileupNumericOptions}
    {counts : List PileupFeatureCounts} {obs : ObservedMods} {strand : Strand}
    {fc n_h n_m n_can nd nf ndf nnc : Nat} {pfc : PileupFeatureCounts}
    (h : pfc ∈ FeatureVector.add_pileup_counts opts counts obs strand fc
      n_h n_m n_can nd nf ndf nnc)
    (hfc : fc = n_can + n_h + n_m) :
    pfc ∈ counts ∨
      (pfc.filtered_coverage = pfc.n_canonical + pfc.n_modified + pfc.n_other_modified ∧
        pfc.fraction_modified = (pfc.n_modified : ℚ) / (pfc.filtered_coverage : ℚ)) := by
  cases opts with
  | Passthrough =>
    simp only [FeatureVector.add_pileup_counts] at h
    rcases mem_ite_append h with h | rfl
    · rcases mem_ite_append h with h | rfl
      · exact .inl h
      · exact .inr ⟨by show fc = n_can + n_h + n_m; omega, rfl⟩
    · exact .inr ⟨by show fc = n_can + n_m + n_h; omega, rfl⟩
  | Collapse method =>
    simp only [FeatureVector.add_pileup_counts] at h
    rcases mem_ite_append h with h | rfl
    · rcases mem_ite_append h with h | rfl
      · exact .inl h
      · exact .inr ⟨by show fc = n_can + n_h + n_m; omega, rfl⟩
    · exact .inr ⟨by show fc = n_can + n_m + n_h; omega, rfl⟩
  | Combine =>
    simp only [FeatureVector.add_pileup_counts] at h
    rcases List.mem_append.mp h with h | h
    · exact .inl h
    · rcases List.mem_singleton.mp h with rfl
      exact .inr ⟨by show fc = n_can + (n_h + n_m) + 0; omega, rfl⟩

theorem add_tally_to_counts_rowInv {counts : List PileupFeatureCounts}
    {tally : Tally} {strand : Strand} {obs : ObservedMods}
    {opts : PileupNumericOptions} {pfc : PileupFeatureCounts}
    (h : pfc ∈ FeatureVector.add_tally_to_counts counts tally strand obs opts) :
    pfc ∈ counts ∨
      (pfc.filtered_coverage = pfc.n_canonical + pfc.n_modified + pfc.n_other_modified ∧
        pfc.fraction_modified = (pfc.n_modified : ℚ) / (pfc.filtered_coverage : ℚ)) := by
  simp only [FeatureVector.add_tally_to_counts] at h
  split at h
  · rcases add_pileup_counts_rowInv h rfl with h | hinv
    · rcases mem_ite_append h with h | rfl
      · exact .inl h
      · refine .inr ⟨by
          show tally.n_modcall_A + tally.n_modcall_a = tally.n_modcall_A + tally.n_modcall_a + 0
          omega, ?_⟩
        show ((tally.n_modcall_a : ℚ) / ((tally.n_modcall_a : ℚ) + (tally.n_modcall_A : ℚ))) =
          ((tally.n_modcall_a : ℕ) : ℚ) / (((tally.n_modcall_A + tally.n_modcall_a : ℕ)) : ℚ)
        push_cast
        rw [add_comm ((tally.n_modcall_a : ℚ)) ((tally.n_modcall_A : ℚ))]
    · exact .inr hinv
  · rcases mem_ite_append h with h | rfl
    · exact .inl h
    · refine .inr ⟨by
        show tally.n_modcall_A + tally.n_modcall_a = tally.n_modcall_A + tally.n_modcall_a + 0
        omega, ?_⟩
      show ((tally.n_modcall_a : ℚ) / ((tally.n_modcall_a : ℚ) + (tally.n_modcall_A : ℚ))) =
        ((tally.n_modcall_a : ℕ) : ℚ) / (((tally.n_modcall_A + tally.n_modcall_a : ℕ)) : ℚ)
      push_cast
      rw [add_comm ((tally.n_modcall_a : ℚ)) ((tally.n_modcall_A : ℚ))]

/-! ## Claim theorems -/

/-- C1: every `PileupFeatureCounts` row produced by decoding a feature
tally, in any pileup numeric mode, satisfies
`filtered_coverage = n_canonical + n_modified + n_other_modified` and
`fraction_modified = n_modified / filtered_coverage`. -/
theorem decode_row_invariant (fv : FeatureVector)
    (pos_observed_mods neg_observed_mods : ObservedMods)
    (pileup_options : PileupNumericOptions) (pfc : PileupFeatureCounts)
    (h : pfc ∈ fv.decode pos_observed_mods neg_observed_mods pileup_options) :
    pfc.filtered_coverage = pfc.n_canonical + pfc.n_modified + pfc.n_other_modified ∧
      pfc.fraction_modified = (pfc.n_modified : ℚ) / (pfc.filtered_coverage : ℚ) := by
  simp only [FeatureVector.decode] at h
  rcases add_tally_to_counts_rowInv h with h | hinv
  · rcases add_tally_to_counts_rowInv h with h | hinv
    · exact absurd h (List.not_mem_nil pfc)
    · exact hinv
  · exact hinv

/-- C1 witness: the invariant at a concrete decoded column. -/
theorem fvWitness_decode :
    fvWitness.decode obsOnlyM obsFalse .Passthrough = [pfcWitness] := by
  norm_num [FeatureVector.decode, FeatureVector.add_tally_to_counts,
    FeatureVector.add_pileup_counts, fvWitness, pfcWitness, obsOnlyM, obsFalse,
    ModCode.char]

/-- C1 witness: the invariant at a concrete decoded column. -/
theorem decode_row_invariant_witness :
    pfcWitness ∈ fvWitness.decode obsOnlyM obsFalse .Passthrough ∧
      (pfcWitness.filtered_coverage =
          pfcWitness.n_canonical + pfcWitness.n_modified + pfcWitness.n_other_modified ∧
        pfcWitness.fraction_modified =
          (pfcWitness.n_modified : ℚ) / (pfcWitness.filtered_coverage : ℚ)) :=
  ⟨by rw [fvWitness_decode]; exact List.mem_singleton.mpr rfl,
    decode_row_invariant fvWitness obsOnlyM obsFalse .Passthrough pfcWitness
      (by rw [fvWitness_decode]; exact List.mem_singleton.mpr rfl)⟩

/-- C3: under `StrandRule::Both` a contribution is routed to the
positive sub-tally exactly when the alignment strand equals the read
strand and to the negative sub-tally exactly when they differ;
`StrandRule::Positive` discards the contributions `Both` would route
to the negative sub-tally, and `StrandRule::Negative` discards the
ones `Both` would route to the positive sub-tally. -/
theorem add_feature_strand_routing (fv : FeatureVector)
    (alignment_strand : Strand) (feature : Feature) (read_strand : Strand) :
    (fv.add_feature alignment_strand feature read_strand .Both =
        if alignment_strand = read_strand then
          { fv with pos_tally := fv.pos_tally.add_feature feature }
        else { fv with neg_tally := fv.neg_tally.add_feature feature }) ∧
      (fv.add_feature alignment_strand feature read_strand .Positive =
        if alignment_strand = read_strand then
          { fv with pos_tally := fv.pos_tally.add_feature feature }
        else fv) ∧
      (fv.add_feature alignment_strand feature read_strand .Negative =
        if alignment_strand = read_strand then fv
        else { fv with neg_tally := fv.neg_tally.add_feature feature }) := by
  cases alignment_strand <;> cases read_strand <;>
    simp [FeatureVector.add_feature]

/-- The raw mod codes of the rows one sub-tally contributes. -/
theorem add_tally_to_counts_codes (counts : List PileupFeatureCounts)
    (tally : Tally) (strand : Strand) (obs : ObservedMods)
    (opts : PileupNumericOptions) :
    (FeatureVector.add_tally_to_counts counts tally strand obs opts).map
        (fun pfc => pfc.raw_mod_code) =
      counts.map (fun pfc => pfc.raw_mod_code) ++ tallyRowCodes tally obs opts := by
  cases opts <;>
    by_cases hA : tally.n_modcall_A + tally.n_modcall_a > 0 <;>
    by_cases hC : tally.n_modcall_h + tally.n_modcall_m + tally.n_modcall_C > 0 <;>
    by_cases hh : obs .h <;>
    by_cases hm : obs .m <;>
    simp [FeatureVector.add_tally_to_counts, FeatureVector.add_pileup_counts,
      tallyRowCodes, ModCode.char, hA, hC, hh, hm]

/-- C4 (amended): the rows `decode` emits, identified by raw mod code:
the cytosine-family rows in Passthrough/Collapse mode follow each
strand's observed-mod-codes set, but the adenine row (code `a`) is
emitted whenever the sub-tally saw any A mod-call regardless of the
observed set, and Combine mode emits its single `C` row regardless of
the observed set. -/
theorem decode_codes (fv : FeatureVector)
    (pos_observed_mods neg_observed_mods : ObservedMods)
    (pileup_options : PileupNumericOptions) :
    (fv.decode pos_observed_mods neg_observed_mods pileup_options).map
        (fun pfc => pfc.raw_mod_code) =
      tallyRowCodes fv.pos_tally pos_observed_mods pileup_options ++
        tallyRowCodes fv.neg_tally neg_observed_mods pileup_options := by
  simp [FeatureVector.decode, add_tally_to_counts_codes]

/-- C4 counterexample: a sub-tally with one adenine mod-call decodes
to a row with raw code `a` even though the observed-mod-codes set is
empty, so a row is emitted for a code absent from the set. -/
theorem decode_codes_counterexample :
    (fvAdenine.decode obsFalse obsFalse .Passthrough).map
        (fun pfc => pfc.raw_mod_code) = ['a'] ∧
      obsFalse .a = false := by
  constructor
  · rfl
  · rfl

theorem alookup_some_mem {κ ν : Type} [DecidableEq κ]
    {l : List (κ × ν)} {k : κ} {v : ν} (h : alookup l k = some v) :
    (k, v) ∈ l := by
  induction l with
  | nil => simp [alookup] at h
  | cons kv rest ih =>
    obtain ⟨k₀, v₀⟩ := kv
    simp only [alookup] at h
    split at h
    · rename_i heq
      obtain rfl := heq
      obtain rfl := Option.some_injective _ h
      exact List.mem_cons_self _ _
    · exact List.mem_cons_of_mem _ (ih h)

theorem pileupDrain_mem_none {start_pos end_pos : Nat}
    {p : Nat} {rule : StrandRule} :
    ∀ cols : List Nat,
      (p, rule) ∈ pileupDrain start_pos end_pos none cols →
      (start_pos ≤ p ∧ p < end_pos) ∧ rule = .Both := by
  intro cols
  induction cols with
  | nil => intro h; simp [pileupDrain] at h
  | cons q rest ih =>
    intro h
    simp only [pileupDrain] at h
    split at h
    · simp at h
    · split at h
      · exact ih h
      · rcases List.mem_cons.mp h with heq | h
        · obtain ⟨rfl, rfl⟩ := Prod.mk.injEq .. ▸ heq
          exact ⟨⟨by omega, by omega⟩, rfl⟩
        · exact ih h

theorem pileupDrain_mem_some {start_pos end_pos : Nat}
    {m : List (Nat × Strand)} {p : Nat} {rule : StrandRule} :
    ∀ cols : List Nat,
      (p, rule) ∈ pileupDrain start_pos end_pos (some m) cols →
      (start_pos ≤ p ∧ p < end_pos) ∧
        ∃ s, alookup m p = some s ∧ rule = strandToRule s := by
  intro cols
  induction cols with
  | nil => intro h; simp [pileupDrain] at h
  | cons q rest ih =>
    intro h
    simp only [pileupDrain] at h
    split at h
    · simp at h
    · split at h
      · exact ih h
      · rcases hlk : alookup m q with _ | s
        · rw [hlk] at h
          exact ih h
        · rw [hlk] at h
          rcases List.mem_cons.mp h with heq | h
          · obtain ⟨rfl, rfl⟩ := Prod.mk.injEq .. ▸ heq
            exact ⟨⟨by omega, by omega⟩, s, hlk, rfl⟩
          · exact ih h

/-- C7: every column the per-interval pileup iterator yields has its
reference position inside `[start_pos, end_pos)`, and when motif
locations are supplied only positions in the motif list are yielded,
with the column's strand rule set to the rule of the motif strand at
that position. -/
theorem pileup_iter_yield (cols : List Nat) (start_pos end_pos : Nat)
    (motif_locations : Option (List (Nat × Strand))) (p : Nat)
    (rule : StrandRule)
    (h : (p, rule) ∈ (PileupIter.new cols start_pos end_pos motif_locations).run) :
    (start_pos ≤ p ∧ p < end_pos) ∧
      (motif_locations = none → rule = .Both) ∧
      (∀ m, motif_locations = some m →
        ∃ s, (p, s) ∈ m ∧ rule = strandToRule s) := by
  rcases motif_locations with _ | m
  · have h' := pileupDrain_mem_none cols h
    exact ⟨h'.1, fun _ => h'.2, fun m hm => by simp at hm⟩
  · have h' := pileupDrain_mem_some cols h
    refine ⟨h'.1, by simp, fun m' hm' => ?_⟩
    obtain rfl := Option.some_injective _ hm'
    obtain ⟨s, hlk, hrule⟩ := h'.2
    exact ⟨s, List.mem_of_mem_filter (alookup_some_mem hlk), hrule⟩

/-- C7 witness: a concrete interval and motif list. -/
theorem pileup_iter_yield_witness :
    ((2, StrandRule.Negative) ∈
        (PileupIter.new [0, 2, 5, 7] 1 6 (some motifWitness)).run) ∧
      (1 ≤ 2 ∧ 2 < 6) ∧
        ((2, Strand.Negative) ∈ motifWitness) :=
  ⟨by decide,
    (pileup_iter_yield [0, 2, 5, 7] 1 6 (some motifWitness) 2
      StrandRule.Negative (by decide)).1,
    by decide⟩

/-- C8: iterating the per-position counts of a `ModBasePileup` yields
the positions in strictly ascending order (the position keys of the
underlying hash map are pairwise distinct). -/
theorem iter_counts_ascending (mbp : ModBasePileup)
    (hkeys : (mbp.position_feature_counts.map Prod.fst).Nodup) :
    mbp.iter_counts.Pairwise (fun a b => a.1 < b.1) := by
  haveI hT : IsTotal (Nat × List PileupFeatureCounts) (fun a b => a.1 ≤ b.1) :=
    ⟨fun a b => Nat.le_total a.1 b.1⟩
  haveI hTr : IsTrans (Nat × List PileupFeatureCounts) (fun a b => a.1 ≤ b.1) :=
    ⟨fun _ _ _ hab hbc => Nat.le_trans hab hbc⟩
  have hsorted : (mbp.position_feature_counts.insertionSort
      (fun a b => a.1 ≤ b.1)).Pairwise (fun a b => a.1 ≤ b.1) :=
    List.sorted_insertionSort _ _
  have hperm : (mbp.position_feature_counts.insertionSort
      (fun a b => a.1 ≤ b.1)).Perm mbp.position_feature_counts :=
    List.perm_insertionSort _ _
  have hnd : ((mbp.position_feature_counts.insertionSort
      (fun a b => a.1 ≤ b.1)).map Prod.fst).Nodup :=
    ((hperm.map Prod.fst).nodup_iff).mpr hkeys
  have hne : (mbp.position_feature_counts.insertionSort
      (fun a b => a.1 ≤ b.1)).Pairwise (fun a b => a.1 ≠ b.1) :=
    (List.pairwise_map).mp hnd
  have := hsorted.and hne
  exact this.imp (fun hab => Nat.lt_of_le_of_ne hab.1 hab.2)

/-- C8 witness: a concrete out-of-order position map with distinct
keys. -/
theorem iter_counts_ascending_witness :
    (mbpWitness.position_feature_counts.map Prod.fst).Nodup ∧
      mbpWitness.iter_counts.Pairwise (fun a b => a.1 < b.1) :=
  ⟨by decide, iter_counts_ascending mbpWitness (by decide)⟩

/-- C2: a stored call with probability `p` is looked up as `Filtered`
when `p ≤ threshold` and verbatim when `p > threshold`. -/
theorem get_mod_call_threshold (cache : ReadCache) (record : CacheRecord)
    (position : Nat) (canonical_base : Char) (threshold p : ℚ)
    (byBase : List (Char × RefPosBaseModCalls)) (posMap : RefPosBaseModCalls)
    (call : BaseModCall)
    (hskip : record.qname ∉ cache.skip_set)
    (hreads : alookup cache.reads record.qname = some byBase)
    (hbase : alookup byBase canonical_base = some posMap)
    (hpos : alookup posMap position = some call)
    (hcall : call = .Canonical p ∨ ∃ code, call = .Modified p code) :
    (p ≤ threshold →
        ReadCache.get_mod_call 1 cache record position canonical_base threshold =
          some (cache, some .Filtered)) ∧
      (threshold < p →
        ReadCache.get_mod_call 1 cache record position canonical_base threshold =
          some (cache, some call)) := by
  rcases hcall with rfl | ⟨code, rfl⟩
  · constructor
    · intro hp
      simp only [ReadCache.get_mod_call, if_neg hskip, hreads, hbase, hpos,
        Option.some_bind, Option.map_some']
      rw [if_neg (not_lt.mpr hp)]
    · intro hp
      simp only [ReadCache.get_mod_call, if_neg hskip, hreads, hbase, hpos,
        Option.some_bind, Option.map_some']
      rw [if_pos hp]
  · constructor
    · intro hp
      simp only [ReadCache.get_mod_call, if_neg hskip, hreads, hbase, hpos,
        Option.some_bind, Option.map_some']
      rw [if_neg (not_lt.mpr hp)]
    · intro hp
      simp only [ReadCache.get_mod_call, if_neg hskip, hreads, hbase, hpos,
        Option.some_bind, Option.map_some']
      rw [if_pos hp]

/-- C2 witness: a concrete cache with one stored modified call, looked
up below and above its probability. -/
theorem get_mod_call_threshold_witness :
    ("read1" ∉ cacheWitness.skip_set ∧
        alookup cacheWitness.reads "read1" =
          some [('C', [(5, .Modified (3 / 4) .m)])] ∧
        alookup [('C', [(5, (BaseModCall.Modified (3 / 4) .m))])] 'C' =
          some [(5, .Modified (3 / 4) .m)] ∧
        alookup [((5 : Nat), (BaseModCall.Modified (3 / 4) .m))] 5 =
          some (.Modified (3 / 4) .m)) ∧
      ReadCache.get_mod_call 1 cacheWitness recordWitness 5 'C' (1 / 2) =
        some (cacheWitness, some (.Modified (3 / 4) .m)) := by
  refine ⟨⟨?_, rfl, rfl, rfl⟩, ?_⟩
  · simp [cacheWitness]
  · exact (get_mod_call_threshold cacheWitness recordWitness 5 'C' (1 / 2)
      (3 / 4) _ _ _ (by simp [cacheWitness]) rfl rfl rfl
      (Or.inr ⟨.m, rfl⟩)).2 (by norm_num)

theorem alookup_ainsert_self {κ ν : Type} [DecidableEq κ]
    (l : List (κ × ν)) (k : κ) (v : ν) :
    alookup (ainsert l k v) k = some v := by
  induction l with
  | nil => simp [ainsert, alookup]
  | cons kv rest ih =>
    obtain ⟨k₀, v₀⟩ := kv
    by_cases hk : k₀ = k
    · subst hk
      simp [ainsert, alookup]
    · simp [ainsert, alookup, hk, ih]

theorem processBases_ok (steps : List BaseStep) :
    ∀ (cache : ReadCache) (record_name : String) (c' : ReadCache),
      ReadCache.processBases cache record_name steps = (c', .ok ()) →
      (c' = cache ∧ steps = []) ∨
        ((alookup c'.reads record_name).isSome = true ∧
          (alookup c'.mod_codes record_name).isSome = true) := by
  induction steps with
  | nil =>
    intro cache record_name c' h
    simp only [ReadCache.processBases] at h
    exact .inl ⟨(Prod.mk.injEq .. ▸ h).1.symm, rfl⟩
  | cons step rest ih =>
    intro cache record_name c' h
    cases step with
    | err e => simp [ReadCache.processBases] at h
    | ok canonical_base codes calls =>
      simp only [ReadCache.processBases] at h
      rcases ih _ _ _ h with ⟨rfl, rfl⟩ | hsome
      · refine .inr ⟨?_, ?_⟩ <;> simp [alookup_ainsert_self]
      · exact .inr hsome

theorem addRecordHandled_mem (cache : ReadCache) (record : CacheRecord) :
    record.qname ∈ (cache.addRecordHandled record).skip_set ∨
      ((alookup (cache.addRecordHandled record).reads record.qname).isSome = true ∧
        (alookup (cache.addRecordHandled record).mod_codes record.qname).isSome = true) := by
  obtain ⟨qname, parse⟩ := record
  cases parse with
  | noTags =>
    exact .inl (List.mem_cons_self _ _)
  | tagErr e =>
    exact .inl (List.mem_cons_self _ _)
  | basesErr e =>
    exact .inl (List.mem_cons_self _ _)
  | okBases mm steps =>
    simp only [ReadCache.addRecordHandled, ReadCache.add_record]
    by_cases hemp : steps.isEmpty
    · simp only [hemp, if_pos]
      exact .inl (List.mem_cons_self _ _)
    · simp only [hemp, Bool.false_eq_true, if_false]
      rcases hpb : cache.processBases qname steps with ⟨c, res⟩
      cases res with
      | error e =>
        exact .inl (List.mem_cons_self _ _)
      | ok u =>
        cases u
        rcases processBases_ok steps cache qname c hpb with ⟨-, rfl⟩ | hsome
        · simp at hemp
        · exact .inr hsome

/-- C9: after `add_record` (with the caller's error handling) the read
id is present in the skip set or the reads map, and consequently both
`get_mod_call` and `get_mod_codes_for_record` return within one
recursive call (fuel 2 always suffices). -/
theorem read_cache_lookup_terminates (cache : ReadCache)
    (record : CacheRecord) (position : Nat) (canonical_base : Char)
    (threshold : ℚ) :
    (record.qname ∈ (cache.addRecordHandled record).skip_set ∨
        (alookup (cache.addRecordHandled record).reads record.qname).isSome = true) ∧
      (ReadCache.get_mod_call 2 cache record position canonical_base
          threshold).isSome = true ∧
      (ReadCache.get_mod_codes_for_record 2 cache record).isSome = true := by
  refine ⟨?_, ?_, ?_⟩
  · rcases addRecordHandled_mem cache record with hmem | ⟨hr, -⟩
    · exact .inl hmem
    · exact .inr hr
  · by_cases hskip : record.qname ∈ cache.skip_set
    · simp [ReadCache.get_mod_call, hskip]
    · rcases hreads : alookup cache.reads record.qname with _ | byBase
      · simp only [ReadCache.get_mod_call, hskip, if_neg, hreads]
        rcases addRecordHandled_mem cache record with hmem | ⟨hr, -⟩
        · simp [ReadCache.get_mod_call, hmem]
        · rcases Option.isSome_iff_exists.mp hr with ⟨v, hv⟩
          by_cases hskip' : record.qname ∈ (cache.addRecordHandled record).skip_set
          · simp [ReadCache.get_mod_call, hskip']
          · simp [ReadCache.get_mod_call, hskip', hv]
      · simp [ReadCache.get_mod_call, hskip, hreads]
  · by_cases hskip : record.qname ∈ cache.skip_set
    · simp [ReadCache.get_mod_codes_for_record, hskip]
    · rcases hcodes : alookup cache.mod_codes record.qname with _ | codes
      · simp only [ReadCache.get_mod_codes_for_record, hskip, if_neg, hcodes]
        rcases addRecordHandled_mem cache record with hmem | ⟨-, hc⟩
        · simp [ReadCache.get_mod_codes_for_record, hmem]
        · rcases Option.isSome_iff_exists.mp hc with ⟨v, hv⟩
          by_cases hskip' : record.qname ∈ (cache.addRecordHandled record).skip_set
          · simp [ReadCache.get_mod_codes_for_record, hskip']
          · simp [ReadCache.get_mod_codes_for_record, hskip', hv]
      · simp [ReadCache.get_mod_codes_for_record, hskip, hcodes]

theorem ofirst_assoc {α : Type} (a b c : Option α) :
    ofirst (ofirst a b) c = ofirst a (ofirst b c) := by
  cases a <;> cases b <;> rfl

theorem alookup_append {κ ν : Type} [DecidableEq κ]
    (l₁ l₂ : List (κ × ν)) (k : κ) :
    alookup (l₁ ++ l₂) k = ofirst (alookup l₁ k) (alookup l₂ k) := by
  induction l₁ with
  | nil => simp [alookup, ofirst]
  | cons kv rest ih =>
    obtain ⟨k₀, v₀⟩ := kv
    by_cases hk : k₀ = k
    · subst hk
      simp [alookup, ofirst]
    · simp [alookup, hk, ih]

theorem op_foldl_lookup {ν : Type} (l : List (String × ν)) :
    ∀ (acc : List (String × ν)) (k : String),
      alookup (l.foldl
          (fun acc kv => if (alookup acc kv.1).isSome then acc else acc ++ [kv])
          acc) k =
        ofirst (alookup acc k) (alookup l k) := by
  induction l with
  | nil => intro acc k; simp [alookup, ofirst]; cases alookup acc k <;> rfl
  | cons kv rest ih =>
    intro acc k
    obtain ⟨k₀, v₀⟩ := kv
    simp only [List.foldl_cons]
    by_cases hin : (alookup acc k₀).isSome
    · rw [if_pos hin, ih acc k]
      by_cases hk : k₀ = k
      · subst hk
        rcases Option.isSome_iff_exists.mp hin with ⟨w, hw⟩
        simp [alookup, hw, ofirst]
      · simp [alookup, hk]
    · rw [if_neg hin, ih (acc ++ [(k₀, v₀)]) k, alookup_append, ofirst_assoc]
      by_cases hk : k₀ = k
      · subst hk
        simp [alookup, ofirst]
      · simp [alookup, hk, ofirst]

/-- C10: merging `ReadIdsToBaseModProbs` with the monoid `op` is a
left-biased union keyed on read id: `zero` is a two-sided identity,
a read id present in both operands keeps the left operand's entry
and discards the right one, and `process_records` skips a record
whose read id was already collected. -/
theorem moniod_left_biased_union :
    (∀ (y : ReadIdsToBaseModProbs) (k : String),
        alookup (ReadIdsToBaseModProbs.zero.op y).inner k = alookup y.inner k) ∧
      (∀ x : ReadIdsToBaseModProbs, x.op ReadIdsToBaseModProbs.zero = x) ∧
      (∀ (x y : ReadIdsToBaseModProbs) (k : String)
          (v w : List (DnaBase × List BaseModProbs)),
        alookup x.inner k = some v → alookup y.inner k = some w →
          alookup (x.op y).inner k = some v) ∧
      (∀ (acc : ReadIdsToBaseModProbs) (record_name : String)
          (info : List (DnaBase × List BaseModProbs)) (rest : RecordStream),
        acc.seen record_name = true →
          ReadIdsToBaseModProbs.processRecords acc
              ((.Use, record_name, info) :: rest) =
            ReadIdsToBaseModProbs.processRecords acc rest) := by
  refine ⟨?_, ?_, ?_, ?_⟩
  · intro y k
    show alookup (y.inner.foldl _ []) k = _
    rw [op_foldl_lookup]
    simp [alookup, ofirst]
  · intro x
    rfl
  · intro x y k v w hx hy
    show alookup (y.inner.foldl _ x.inner) k = some v
    rw [op_foldl_lookup, hx]
    rfl
  · intro acc record_name info rest hseen
    simp [ReadIdsToBaseModProbs.processRecords, hseen]

/-- C10 witness: concrete operands sharing a read id, and a concrete
stream with an already-collected read. -/
theorem moniod_left_biased_union_witness :
    (alookup ridsX.inner "read1" = some [] ∧
        alookup ridsY.inner "read1" = some [(DnaBase.C, [])] ∧
        alookup (ridsX.op ridsY).inner "read1" = some []) ∧
      (ridsX.seen "read1" = true ∧
        ReadIdsToBaseModProbs.processRecords ridsX
            [(.Use, "read1", [(DnaBase.C, [])])] =
          ReadIdsToBaseModProbs.processRecords ridsX []) := by
  refine ⟨⟨rfl, rfl, ?_⟩, rfl, ?_⟩
  · exact moniod_left_biased_union.2.2.1 ridsX ridsY "read1" [] [(DnaBase.C, [])]
      rfl rfl
  · exact moniod_left_biased_union.2.2.2 ridsX "read1" [(DnaBase.C, [])] []
      rfl

/-- C5 counterexample: a primary record with a zero-length sequence
aborts the adjust-mods run under fail-fast and is counted as failed —
not skipped — otherwise. -/
theorem zero_length_counterexample :
    adjustRunStep true (adjust_mod_probs zeroLenRecord) true =
        .aborted "seq is zero length" ∧
      adjustRunStep false (adjust_mod_probs zeroLenRecord) true =
        .countedFailed ∧
      adjustRunStep false (adjust_mod_probs zeroLenRecord) true ≠
        .countedSkipped := by
  refine ⟨rfl, rfl, ?_⟩
  intro h
  simp [adjustRunStep, adjust_mod_probs, record_is_valid, zeroLenRecord] at h

/-- C5 (amended): in the tag-rewrite drivers, every primary record
with a zero-length sequence is classified as Failed: it is counted in
the failed tally, and in adjust-mods with fail-fast set it aborts the
run. -/
theorem zero_length_is_failed (record : BamRecord) (write_ok : Bool)
    (hsec : record.isSecondary = false) (hlen : record.seqLen = 0) :
    adjust_mod_probs record = .error (.Failed "seq is zero length") ∧
      update_mod_tags record = .error (.Failed "seq is zero length") ∧
      adjustRunStep true (adjust_mod_probs record) write_ok =
        .aborted "seq is zero length" ∧
      adjustRunStep false (adjust_mod_probs record) write_ok =
        .countedFailed ∧
      updateRunStep (update_mod_tags record) write_ok = .countedFailed := by
  have hval : record_is_valid record = .error (.Failed "seq is zero length") := by
    simp [record_is_valid, hsec, hlen]
  have hadj : adjust_mod_probs record = .error (.Failed "seq is zero length") := by
    simp [adjust_mod_probs, hval]
  have hupd : update_mod_tags record = .error (.Failed "seq is zero length") := by
    simp [update_mod_tags, hval]
  refine ⟨hadj, hupd, ?_, ?_, ?_⟩
  · rw [hadj]; rfl
  · rw [hadj]; rfl
  · rw [hupd]; rfl

/-- C5 witness: the amended classification at the concrete zero-length
record. -/
theorem zero_length_is_failed_witness :
    (zeroLenRecord.isSecondary = false ∧ zeroLenRecord.seqLen = 0) ∧
      adjust_mod_probs zeroLenRecord = .error (.Failed "seq is zero length") ∧
      updateRunStep (update_mod_tags zeroLenRecord) true = .countedFailed :=
  ⟨⟨rfl, rfl⟩, (zero_length_is_failed zeroLenRecord true rfl rfl).1,
    (zero_length_is_failed zeroLenRecord true rfl rfl).2.2.2.2⟩

/-- C6: a successfully rewritten record gets its new tags pushed under
the observed tag-name style by adjust-mods and under the canonical
uppercase `MM`/`ML` names by update-tags; the observed style is `MM`
exactly when the record carried an `MM` tag, and is one of `MM`/`Mm`. -/
theorem rewrite_tag_style (record : BamRecord) (info : ModBaseInfo)
    (hvalid : record_is_valid record = .ok ())
    (hinfo : ModBaseInfo.new_from_record record = .ok info) :
    adjust_mod_probs record =
        .ok ((((record.remove_aux info.mm_style).remove_aux
            info.ml_style).push_aux info.mm_style
            (.str (aggregateTags info.groups).1)).push_aux info.ml_style
            (.bytes (aggregateTags info.groups).2)) ∧
      update_mod_tags record =
        .ok ((((record.remove_aux info.mm_style).remove_aux
            info.ml_style).push_aux "MM"
            (.str (aggregateTags info.groups).1)).push_aux "ML"
            (.bytes (aggregateTags info.groups).2)) ∧
      (info.mm_style = "MM" ∨ info.mm_style = "Mm") ∧
      (info.mm_style = "MM" ↔ (alookup record.aux "MM").isSome = true) ∧
      (info.ml_style = "ML" ∨ info.ml_style = "Ml") := by
  refine ⟨?_, ?_, ?_⟩
  · simp [adjust_mod_probs, hvalid, hinfo]
  · simp [update_mod_tags, hvalid, hinfo, MM_TAGS, ML_TAGS]
  · rcases hMM : MM_TAGS.find? (fun t => (alookup record.aux t).isSome)
      with _ | mmS
    · simp only [ModBaseInfo.new_from_record, hMM] at hinfo
      exact Except.noConfusion hinfo
    · rcases hML : ML_TAGS.find? (fun t => (alookup record.aux t).isSome)
        with _ | mlS
      · simp only [ModBaseInfo.new_from_record, hMM, hML] at hinfo
        exact Except.noConfusion hinfo
      · simp only [ModBaseInfo.new_from_record, hMM, hML, Except.ok.injEq]
          at hinfo
        subst hinfo
        have hmemMM : mmS ∈ MM_TAGS := List.mem_of_find?_eq_some hMM
        have hmemML : mlS ∈ ML_TAGS := List.mem_of_find?_eq_some hML
        have hpredMM := List.find?_some hMM
        refine ⟨?_, ⟨?_, ?_⟩, ?_⟩
        · simpa [MM_TAGS] using hmemMM
        · intro hmm
          have hmm' : mmS = "MM" := hmm
          rw [hmm'] at hpredMM
          exact hpredMM
        · intro hsome
          have : MM_TAGS.find? (fun t => (alookup record.aux t).isSome) =
              some "MM" := by
            simp only [MM_TAGS]
            exact List.find?_cons_of_pos _ hsome
          rw [hMM] at this
          show mmS = "MM"
          exact Option.some_injective _ this
        · simpa [ML_TAGS] using hmemML

/-- C6 witness: a record carrying only the legacy `Mm`/`Ml` names:
adjust-mods writes the new tags back as `Mm`/`Ml`, update-tags as
`MM`/`ML`. -/
theorem rewrite_tag_style_witness :
    (record_is_valid legacyRecord = .ok () ∧
        ModBaseInfo.new_from_record legacyRecord = .ok legacyInfo) ∧
      (legacyInfo.mm_style = "MM" ∨ legacyInfo.mm_style = "Mm") ∧
      adjust_mod_probs legacyRecord =
        .ok ((((legacyRecord.remove_aux legacyInfo.mm_style).remove_aux
            legacyInfo.ml_style).push_aux legacyInfo.mm_style
            (.str (aggregateTags legacyInfo.groups).1)).push_aux
            legacyInfo.ml_style (.bytes (aggregateTags legacyInfo.groups).2)) ∧
      update_mod_tags legacyRecord =
        .ok ((((legacyRecord.remove_aux legacyInfo.mm_style).remove_aux
            legacyInfo.ml_style).push_aux "MM"
            (.str (aggregateTags legacyInfo.groups).1)).push_aux "ML"
            (.bytes (aggregateTags legacyInfo.groups).2)) :=
  ⟨⟨rfl, rfl⟩,
    (rewrite_tag_style legacyRecord legacyInfo rfl rfl).2.2.1,
    (rewrite_tag_style legacyRecord legacyInfo rfl rfl).1,
    (rewrite_tag_style legacyRecord legacyInfo rfl rfl).2.1⟩

end Modkit
